import Mathlib

/-!
Verification of the go-licenser license-header compliance engine
(src/main.go) against its natural-language specification.

The Go source is shallowly embedded:

* Pure string manipulation (strings.TrimLeft, filepath.Ext, the
  fmt.Sprintf "%s" substitution loop of run, filepath.Rel) becomes
  executable Lean functions over String / List Char.
* The external collaborators from the licensing package
  (licensing.ContainsHeader, licensing.RewriteFileWithHeader) and the
  operating-system outcome of os.Open are abstracted into Boolean
  fields of a per-file model: only their success/failure result feeds
  back into the control flow of src/main.go.
* filepath.WalkDir together with the callback of walk (src/main.go:158-184)
  becomes a recursive function over an explicit filesystem tree; the
  fs.SkipDir control flow (prune a directory, break out of the
  remaining siblings when returned for a file, abort on a real error)
  is reproduced from the documented semantics of filepath.WalkDir.
* Helpers of this repository that are outside src/ (cleanPathPrefixes,
  needsExclusion) are modelled from the spec and marked as such.

Exit codes are the iota constants of src/main.go:41-50 as natural
numbers; an error value is an Option Nat (none stands for a nil error).
-/

/-- Exit code iota constant from src/main.go:42. -/
def exitDefault : Nat := 0

/-- Exit code iota constant from src/main.go:43. -/
def exitSourceNeedsToBeRewritten : Nat := 1

/-- Exit code iota constant from src/main.go:44. -/
def exitFailedToStatTree : Nat := 2

/-- Exit code iota constant from src/main.go:45. -/
def exitFailedToStatFile : Nat := 3

/-- Exit code iota constant from src/main.go:46. -/
def exitFailedToWalkPath : Nat := 4

/-- Exit code iota constant from src/main.go:47. -/
def exitFailedToOpenWalkFile : Nat := 5

/-- Exit code iota constant from src/main.go:48. -/
def errFailedRewrittingFile : Nat := 6

/-- Exit code iota constant from src/main.go:49. -/
def errUnknownLicense : Nat := 7

/-- The always-excluded directory names (src/main.go:70). -/
def defaultExludedDirs : List String := ["vendor", ".git"]

/-- Embeds stringInSlice (src/main.go:213-220). -/
def stringInSlice (a : String) (list : List String) : Bool :=
  match list with
  | [] => false
  | b :: rest => if b = a then true else stringInSlice a rest

/-- Models strings.TrimLeft from the Go standard library: removes the
maximal leading run of characters of s that occur anywhere in cutset.
Note that the cutset is a set of characters, not a prefix string. -/
def goTrimLeft (s cutset : String) : String :=
  String.mk (s.toList.dropWhile (fun c => c ∈ cutset.toList))

/-- Modelled from the spec: cleanPathPrefixes is defined in this
repository outside src/; per the spec (section 4.4) the path compared
against the exclusion entries has path separators normalized and
"leading separators stripped", so this model strips every leading
path-separator character. The call in walk (src/main.go:166-169)
passes the single-element prefix list consisting of the OS path
separator, which is "/" here. -/
def cleanPathPrefixes (s : String) : String :=
  String.mk (s.toList.dropWhile (fun c => c = '/'))

/-- The path handed to the exclusion check for a walked entry: the
composition computed at src/main.go:166-169,
cleanPathPrefixes(strings.TrimLeft(path, p), [os.PathSeparator]). -/
def currentPathOf (root path : String) : String :=
  cleanPathPrefixes (goTrimLeft path root)

/-- Modelled from the spec: needsExclusion is defined in this
repository outside src/; per the spec (section 4.4) an explicit
exclusion entry "is compared against the traversal-relative path
exactly" (whole-relative-path equality, not substring containment). -/
def needsExclusion (path : String) (exclude : List String) : Bool :=
  stringInSlice path exclude

/-- Follows the spec (section 4.4): the path of an entry relative to
the scan root, with exactly the root prefix removed and leading
separators stripped. Used to compare the spec's exclusion rule with
the path the code actually computes (currentPathOf). -/
def specRelPath (root path : String) : String :=
  if root.toList.isPrefixOf path.toList then
    String.mk ((path.toList.drop root.toList.length).dropWhile (fun c => c = '/'))
  else path

/-- Models path/filepath.Ext from the Go standard library: the suffix
of the final path element beginning at its final dot, or the empty
string if the final element has no dot. -/
def filepathExt (path : String) : String :=
  let seg := path.toList.reverse.takeWhile (fun c => c ≠ '/')
  if seg.contains '.' then
    String.mk (((seg.takeWhile (fun c => c ≠ '.')) ++ ['.']).reverse)
  else ""

/-- Decides whether a character list contains the two-character verb
"%s"; models strings.Contains(line, "%s") at src/main.go:130. -/
def hasVerb : List Char → Bool
  | '%' :: 's' :: _ => true
  | _ :: rest => hasVerb rest
  | [] => false

/-- Models strings.Contains(line, "%s"). -/
def containsPlaceholder (line : String) : Bool :=
  hasVerb line.toList

/-- Models fmt.Sprintf for format strings whose only percent sequences
are "%s" verbs (the license templates of this tool): each "%s" verb
consumes the next argument in order; a verb with no argument left
renders as the fmt missing-argument marker. -/
def sprintfAux : List String → List Char → List Char
  | _, [] => []
  | args, '%' :: 's' :: rest =>
    match args with
    | a :: more => a.toList ++ sprintfAux more rest
    | [] => "%!s(MISSING)".toList ++ sprintfAux [] rest
  | args, c :: rest => c :: sprintfAux args rest

/-- Models fmt.Sprintf(line, licensor) as called at src/main.go:131. -/
def goSprintf (line licensor : String) : String :=
  String.mk (sprintfAux [licensor] line.toList)

/-- Embeds the header-materialization loop of run (src/main.go:128-135).
The loop iterates over the stored template slice; for each line
containing the "%s" placeholder it assigns the substituted line back
into the slice (header[i] = fmt.Sprintf(line, licensor)) and then
appends the current slice element plus a newline to headerBytes.
The first component of the result is the template slice as it is left
after the loop (the registry's stored value, since the slice is shared
with the licensing.Headers map); the second is headerBytes. -/
def runMaterialize (header : List String) (licensor : String) : List String × String :=
  header.foldl
    (fun acc line =>
      let line2 := if containsPlaceholder line then goSprintf line licensor else line
      (acc.1 ++ [line2], acc.2 ++ line2 ++ "\n"))
    ([], "")

/-- Follows the spec (section 4.2): substitute the licensor into a
template line that contains the placeholder, pass other lines through. -/
def specSubstLine (licensor line : String) : String :=
  if containsPlaceholder line then goSprintf line licensor else line

/-- Follows the spec (section 4.2): concatenate all substituted lines,
appending exactly one newline character after each line including the
last, to form the canonical header byte sequence. -/
def specHeaderBytes (header : List String) (licensor : String) : String :=
  match header with
  | [] => ""
  | line :: rest => specSubstLine licensor line ++ "\n" ++ specHeaderBytes rest licensor

/-- Abstract model of one filesystem entry as seen by the per-file
check addOrCheckLicense (src/main.go:186-211). path and name are the
walk path and base name; the three Booleans abstract the external
collaborators: whether os.Open succeeds, whether
licensing.ContainsHeader reports the header present, and whether
licensing.RewriteFileWithHeader succeeds. -/
structure FileModel where
  path : String
  name : String
  openOk : Bool
  hasHeader : Bool
  rewriteOk : Bool
deriving Repr, DecidableEq

/-- Observable outcome of one addOrCheckLicense call: whether os.Open
was invoked, whether reportFile was invoked, whether
licensing.RewriteFileWithHeader was invoked, and the returned error
(the code of the returned Error value, none for a nil return). -/
structure FileOutcome where
  openAttempted : Bool
  reported : Bool
  rewriteAttempted : Bool
  err : Option Nat
deriving Repr, DecidableEq

/-- Embeds addOrCheckLicense (src/main.go:186-211). isDir models
info.IsDir(). A directory or an extension mismatch returns nil without
opening; a failed open returns exitFailedToOpenWalkFile; a file whose
content already carries the header returns nil; otherwise in dry-run
mode the file is reported and exitSourceNeedsToBeRewritten returned,
and in rewrite mode the rewriter runs, returning nil on success and
errFailedRewrittingFile on failure. -/
def addOrCheckLicense (ext : String) (dry isDir : Bool) (f : FileModel) : FileOutcome :=
  if isDir = true ∨ filepathExt f.path ≠ ext then
    { openAttempted := false, reported := false, rewriteAttempted := false, err := none }
  else if f.openOk = false then
    { openAttempted := true, reported := false, rewriteAttempted := false,
      err := some exitFailedToOpenWalkFile }
  else if f.hasHeader = true then
    { openAttempted := true, reported := false, rewriteAttempted := false, err := none }
  else if dry = true then
    { openAttempted := true, reported := true, rewriteAttempted := false,
      err := some exitSourceNeedsToBeRewritten }
  else if f.rewriteOk = true then
    { openAttempted := true, reported := false, rewriteAttempted := true, err := none }
  else
    { openAttempted := true, reported := false, rewriteAttempted := true,
      err := some errFailedRewrittingFile }

/-- Filesystem tree as enumerated by filepath.WalkDir: a file entry,
or a directory entry with its children in listing order. The Boolean
on a directory abstracts whether reading that directory succeeds
(false models an os.ReadDir failure, which WalkDir reports to the
callback as a non-nil walk error). -/
inductive FsTree where
  | file : FileModel → FsTree
  | dir : FileModel → Bool → List FsTree → FsTree
deriving Repr

/-- One observable event of a walk: either the callback reached
addOrCheckLicense for an entry (isDir records info.IsDir()), or the
callback was invoked with a directory-read error for a directory. An
entry for which the callback returned fs.SkipDir before reaching
addOrCheckLicense produces no event. -/
inductive WalkEvent where
  | visited : Bool → FileModel → FileOutcome → WalkEvent
  | dirReadFailed : FileModel → WalkEvent
deriving Repr, DecidableEq

/-- The error the captured err variable of walk (src/main.go:159)
would be set to by an event: the outcome's error for a visit, and the
exitFailedToWalkPath error for a directory-read failure
(src/main.go:161-164). -/
def eventErr : WalkEvent → Option Nat
  | WalkEvent.visited _ _ oc => oc.err
  | WalkEvent.dirReadFailed _ => some exitFailedToWalkPath

/-- Embeds the assignment pattern of walk (src/main.go:176-178 and
161-163): a non-nil per-entry error overwrites the captured err
variable, a nil one leaves it unchanged. -/
def updErr (old new : Option Nat) : Option Nat :=
  match new with
  | some e => some e
  | none => old

/-- Result of walking a list of sibling entries: the final value of
the captured err variable, the events in traversal order, and whether
the walk was aborted by a non-SkipDir error returned from the callback
(the walk-error branch at src/main.go:161-164). -/
structure WalkResult where
  err : Option Nat
  events : List WalkEvent
  aborted : Bool
deriving Repr, DecidableEq

/-- Embeds filepath.WalkDir running the callback of walk
(src/main.go:158-184) over a list of sibling entries, threading the
captured err variable. Per the documented semantics of
filepath.WalkDir:

* an entry whose callback returns fs.SkipDir is not descended into
  when it is a directory, and when it is a file the remaining entries
  of the containing directory are additionally skipped;
* a directory whose callback returned nil is read; on a read failure
  the callback runs again with the error (setting err to
  exitFailedToWalkPath) and its non-SkipDir return aborts the whole
  walk;
* otherwise the children are walked, then the remaining siblings.

The callback returns fs.SkipDir exactly when
needsExclusion(currentPath, exclude) or the entry is a directory whose
name is in defaultExludedDirs (src/main.go:171-174); in every other
case it passes the entry to addOrCheckLicense, folds a non-nil result
into err, and returns nil (src/main.go:176-180). -/
def walkList (root ext : String) (exclude : List String) (dry : Bool) :
    List FsTree → Option Nat → WalkResult
  | [], e => { err := e, events := [], aborted := false }
  | FsTree.file f :: ts, e =>
    if needsExclusion (currentPathOf root f.path) exclude then
      { err := e, events := [], aborted := false }
    else
      let oc := addOrCheckLicense ext dry false f
      let r := walkList root ext exclude dry ts (updErr e oc.err)
      { err := r.err, events := WalkEvent.visited false f oc :: r.events,
        aborted := r.aborted }
  | FsTree.dir f readOk cs :: ts, e =>
    if needsExclusion (currentPathOf root f.path) exclude ∨
        stringInSlice f.name defaultExludedDirs then
      walkList root ext exclude dry ts e
    else
      let oc := addOrCheckLicense ext dry true f
      if readOk then
        let rc := walkList root ext exclude dry cs (updErr e oc.err)
        if rc.aborted then
          { err := rc.err, events := WalkEvent.visited true f oc :: rc.events,
            aborted := true }
        else
          let rt := walkList root ext exclude dry ts rc.err
          { err := rt.err,
            events := WalkEvent.visited true f oc :: (rc.events ++ rt.events),
            aborted := rt.aborted }
      else
        { err := some exitFailedToWalkPath,
          events := [WalkEvent.visited true f (addOrCheckLicense ext dry true f),
                     WalkEvent.dirReadFailed f],
          aborted := true }
termination_by l => sizeOf l

/-- Embeds walk (src/main.go:158-184): run the WalkDir traversal from
the root entry with the captured err variable starting at nil (the
license and headerBytes arguments of the Go function are only
forwarded to the collaborators abstracted inside FileModel, and the
return value of filepath.WalkDir itself is discarded by walk, which
returns the captured err variable). -/
def walk (p ext : String) (exclude : List String) (dry : Bool) (tree : FsTree) :
    Option Nat × List WalkEvent :=
  let r := walkList p ext exclude dry [tree] none
  (r.err, r.events)

/-- All file entries of a forest, in traversal order. -/
def allFiles : List FsTree → List FileModel
  | [] => []
  | FsTree.file f :: ts => f :: allFiles ts
  | FsTree.dir _ _ cs :: ts => allFiles cs ++ allFiles ts
termination_by l => sizeOf l

/-- All directory entries of a forest with their read-success flag, in
traversal order. -/
def allDirs : List FsTree → List (FileModel × Bool)
  | [] => []
  | FsTree.file _ :: ts => allDirs ts
  | FsTree.dir f ok cs :: ts => (f, ok) :: (allDirs cs ++ allDirs ts)
termination_by l => sizeOf l

/-- Splits a character list into path segments at the separator. -/
def splitSegs : List Char → List Char → List String
  | acc, [] => [String.mk acc.reverse]
  | acc, '/' :: rest => String.mk acc.reverse :: splitSegs [] rest
  | acc, c :: rest => splitSegs (c :: acc) rest

/-- The nonempty slash-separated segments of a path. -/
def pathSegments (s : String) : List String :=
  (splitSegs [] s.toList).filter (fun x => x ≠ "")

/-- Whether a path is absolute (starts with the separator). -/
def isAbsPath (s : String) : Bool :=
  match s.toList with
  | '/' :: _ => true
  | _ => false

/-- Drops the common leading segments of two segment lists. -/
def dropCommonSegs : List String → List String → List String × List String
  | a :: as_, b :: bs => if a = b then dropCommonSegs as_ bs else (a :: as_, b :: bs)
  | as_, bs => (as_, bs)

/-- Models path/filepath.Rel from the Go standard library for cleaned
paths without "." or ".." components: fails (returns none, modelling
the error return) when exactly one of the two paths is absolute;
otherwise removes the common leading segments and prepends one ".."
for every remaining segment of the base. -/
def goRel (base target : String) : Option String :=
  if (isAbsPath base = isAbsPath target) = false then none
  else
    let pr := dropCommonSegs (pathSegments base) (pathSegments target)
    let parts := pr.1.map (fun _ => "..") ++ pr.2
    if parts = [] then some "." else some (String.intercalate "/" parts)

/-- Embeds reportFile (src/main.go:149-156). The variable named cwd in
the source is filepath.Abs(filepath.Dir(os.Args[0])) — the absolute
directory of the running binary, an ambient process value modelled
here as the binDir parameter. filepath.Rel of that directory and the
walked path is printed; if Rel fails, the walked path itself is
printed. The single line written to out is returned, with the
defaultFormat verb (src/main.go:38) filled in. -/
def reportFile (binDir f : String) : String :=
  let rel := match goRel binDir f with
    | some r => r
    | none => f
  rel ++ ": is missing the license header\n"

def lastErrAfter (e : Option Nat) (evs : List WalkEvent) : Option Nat :=
  evs.foldl (fun acc ev => updErr acc (eventErr ev)) e

def c2Dir : FileModel := ⟨"r", "r", true, true, true⟩

def c2FileA : FileModel := ⟨"r/a.go", "a.go", false, false, true⟩

def c2FileB : FileModel := ⟨"r/b.go", "b.go", true, false, true⟩

def c2Tree : FsTree := FsTree.dir c2Dir true [FsTree.file c2FileA, FsTree.file c2FileB]

def c3Dir : FileModel := ⟨"r", "r", true, true, true⟩

def c3FileX : FileModel := ⟨"r/x.go", "x.go", true, false, true⟩

def c3FileY : FileModel := ⟨"r/y.go", "y.go", true, false, true⟩

def c3Tree : FsTree := FsTree.dir c3Dir true [FsTree.file c3FileX, FsTree.file c3FileY]

def w1Dir : FileModel := ⟨"r", "r", true, true, true⟩

def w1File : FileModel := ⟨"r/q.go", "q.go", true, false, true⟩

def w1Tree : FsTree := FsTree.dir w1Dir true [FsTree.file w1File]

def c4Dir : FileModel := ⟨"r", "r", true, true, true⟩

def c4FileA : FileModel := ⟨"r/a.go", "a.go", true, false, true⟩

def c4FileB : FileModel := ⟨"r/b.go", "b.go", false, false, true⟩

def c4Tree : FsTree := FsTree.dir c4Dir true [FsTree.file c4FileA, FsTree.file c4FileB]

def w4Dir : FileModel := ⟨"r", "r", true, true, true⟩

def w4File : FileModel := ⟨"r/a.go", "a.go", true, false, true⟩

def w4Tree : FsTree := FsTree.dir w4Dir true [FsTree.file w4File]

theorem walkList_nil (root ext : String) (exclude : List String) (dry : Bool) (e : Option Nat) :
    walkList root ext exclude dry [] e = { err := e, events := [], aborted := false } := by
  rw [walkList]

theorem walkList_file_excluded (root ext : String) (exclude : List String) (dry : Bool)
    (f : FileModel) (ts : List FsTree) (e : Option Nat)
    (h : needsExclusion (currentPathOf root f.path) exclude = true) :
    walkList root ext exclude dry (FsTree.file f :: ts) e =
      { err := e, events := [], aborted := false } := by
  rw [walkList]; simp [h]

theorem walkList_file_cons (root ext : String) (exclude : List String) (dry : Bool)
    (f : FileModel) (ts : List FsTree) (e : Option Nat)
    (h : needsExclusion (currentPathOf root f.path) exclude = false) :
    walkList root ext exclude dry (FsTree.file f :: ts) e =
      { err := (walkList root ext exclude dry ts
                  (updErr e (addOrCheckLicense ext dry false f).err)).err,
        events := WalkEvent.visited false f (addOrCheckLicense ext dry false f) ::
          (walkList root ext exclude dry ts
            (updErr e (addOrCheckLicense ext dry false f).err)).events,
        aborted := (walkList root ext exclude dry ts
          (updErr e (addOrCheckLicense ext dry false f).err)).aborted } := by
  rw [walkList]; simp [h]

theorem walkList_dir_excluded (root ext : String) (exclude : List String) (dry : Bool)
    (f : FileModel) (readOk : Bool) (cs ts : List FsTree) (e : Option Nat)
    (h : needsExclusion (currentPathOf root f.path) exclude = true ∨
      stringInSlice f.name defaultExludedDirs = true) :
    walkList root ext exclude dry (FsTree.dir f readOk cs :: ts) e =
      walkList root ext exclude dry ts e := by
  rw [walkList]
  rcases h with h | h <;> simp [h]

theorem walkList_dir_read_failed (root ext : String) (exclude : List String) (dry : Bool)
    (f : FileModel) (cs ts : List FsTree) (e : Option Nat)
    (h1 : needsExclusion (currentPathOf root f.path) exclude = false)
    (h2 : stringInSlice f.name defaultExludedDirs = false) :
    walkList root ext exclude dry (FsTree.dir f false cs :: ts) e =
      { err := some exitFailedToWalkPath,
        events := [WalkEvent.visited true f (addOrCheckLicense ext dry true f),
                   WalkEvent.dirReadFailed f],
        aborted := true } := by
  rw [walkList]; simp [h1, h2]

theorem walkList_dir_cons (root ext : String) (exclude : List String) (dry : Bool)
    (f : FileModel) (cs ts : List FsTree) (e : Option Nat)
    (h1 : needsExclusion (currentPathOf root f.path) exclude = false)
    (h2 : stringInSlice f.name defaultExludedDirs = false) :
    walkList root ext exclude dry (FsTree.dir f true cs :: ts) e =
      (let rc := walkList root ext exclude dry cs
          (updErr e (addOrCheckLicense ext dry true f).err)
       if rc.aborted then
        { err := rc.err,
          events := WalkEvent.visited true f (addOrCheckLicense ext dry true f) :: rc.events,
          aborted := true }
       else
        { err := (walkList root ext exclude dry ts rc.err).err,
          events := WalkEvent.visited true f (addOrCheckLicense ext dry true f) ::
            (rc.events ++ (walkList root ext exclude dry ts rc.err).events),
          aborted := (walkList root ext exclude dry ts rc.err).aborted }) := by
  rw [walkList]; simp [h1, h2]

theorem lastErrAfter_cons (e : Option Nat) (ev : WalkEvent) (evs : List WalkEvent) :
    lastErrAfter e (ev :: evs) = lastErrAfter (updErr e (eventErr ev)) evs := rfl

theorem lastErrAfter_append (e : Option Nat) (xs ys : List WalkEvent) :
    lastErrAfter e (xs ++ ys) = lastErrAfter (lastErrAfter e xs) ys := by
  simp [lastErrAfter, List.foldl_append]

theorem walkList_err_eq (root ext : String) (exclude : List String) (dry : Bool)
    (l : List FsTree) (e : Option Nat) :
    (walkList root ext exclude dry l e).err =
      lastErrAfter e (walkList root ext exclude dry l e).events := by
  induction l, e using walkList.induct root ext exclude dry with
  | case1 e => simp [walkList_nil, lastErrAfter]
  | case2 f ts e hex => simp [walkList_file_excluded _ _ _ _ _ _ _ hex, lastErrAfter]
  | case3 f ts e hex oc ih =>
    rw [Bool.not_eq_true] at hex
    rw [walkList_file_cons _ _ _ _ _ _ _ hex]
    simpa [lastErrAfter_cons, eventErr] using ih
  | case4 f readOk cs ts e hex ih =>
    rw [walkList_dir_excluded _ _ _ _ _ _ _ _ _ hex]
    exact ih
  | case5 f cs ts e hex oc rc hab ih =>
    rw [not_or, Bool.not_eq_true, Bool.not_eq_true] at hex
    unfold_let rc oc at hab ih
    rw [walkList_dir_cons _ _ _ _ _ _ _ _ hex.1 hex.2]
    simp only [hab, if_true]
    simpa [lastErrAfter_cons, eventErr] using ih
  | case6 f cs ts e hex oc rc hab ih1 ih2 ih3 =>
    rw [not_or, Bool.not_eq_true, Bool.not_eq_true] at hex
    rw [Bool.not_eq_true] at hab
    unfold_let rc oc at hab ih1 ih3
    rw [walkList_dir_cons _ _ _ _ _ _ _ _ hex.1 hex.2]
    simp only [hab, Bool.false_eq_true, if_false, ite_false]
    simp only [lastErrAfter_cons, eventErr, lastErrAfter_append]
    rw [← ih1]
    exact ih3
  | case7 f readOk cs ts e hex hro =>
    rw [not_or, Bool.not_eq_true, Bool.not_eq_true] at hex
    rw [Bool.not_eq_true] at hro
    subst hro
    rw [walkList_dir_read_failed _ _ _ _ _ _ _ _ hex.1 hex.2]
    simp [lastErrAfter, eventErr, updErr]

theorem updErr_none_left (r : Option Nat) : updErr none r = r := by
  cases r <;> rfl

theorem getLast?_cons_eq (x : Nat) (xs : List Nat) :
    (x :: xs).getLast? = updErr (some x) xs.getLast? := by
  cases xs with
  | nil => rfl
  | cons y ys =>
    rw [List.getLast?_cons_cons]
    cases h : (y :: ys).getLast? with
    | none => simp [List.getLast?_eq_none_iff] at h
    | some z => rfl

theorem lastErrAfter_eq_getLast (evs : List WalkEvent) :
    ∀ e : Option Nat, lastErrAfter e evs = updErr e (evs.filterMap eventErr).getLast? := by
  induction evs with
  | nil => intro e; rfl
  | cons ev rest ih =>
    intro e
    rw [lastErrAfter_cons, ih]
    cases h : eventErr ev with
    | none => simp [List.filterMap_cons, h, updErr]
    | some x =>
      simp only [List.filterMap_cons, h, getLast?_cons_eq]
      cases hr : rest.filterMap eventErr |>.getLast? <;> simp [updErr]

theorem walkList_events_shape (root ext : String) (exclude : List String) (dry : Bool)
    (l : List FsTree) (e : Option Nat) :
    ∀ ev ∈ (walkList root ext exclude dry l e).events,
      (∃ f ∈ allFiles l, ev = WalkEvent.visited false f (addOrCheckLicense ext dry false f)) ∨
      (∃ d ∈ allDirs l, ev = WalkEvent.visited true d.1 (addOrCheckLicense ext dry true d.1)) ∨
      (∃ d ∈ allDirs l, d.2 = false ∧ ev = WalkEvent.dirReadFailed d.1) := by
  induction l, e using walkList.induct root ext exclude dry with
  | case1 e => simp [walkList_nil]
  | case2 f ts e hex => simp [walkList_file_excluded _ _ _ _ _ _ _ hex]
  | case3 f ts e hex oc ih =>
    rw [Bool.not_eq_true] at hex
    unfold_let oc at ih
    rw [walkList_file_cons _ _ _ _ _ _ _ hex]
    intro ev hev
    rcases List.mem_cons.mp hev with h | h
    · exact Or.inl ⟨f, by simp [allFiles], h⟩
    · rcases ih ev h with ⟨g, hg, hh⟩ | ⟨d, hd, hh⟩ | ⟨d, hd, hh⟩
      · exact Or.inl ⟨g, by simp [allFiles, hg], hh⟩
      · exact Or.inr (Or.inl ⟨d, by simp [allDirs, hd], hh⟩)
      · exact Or.inr (Or.inr ⟨d, by simp [allDirs, hd], hh⟩)
  | case4 f readOk cs ts e hex ih =>
    rw [walkList_dir_excluded _ _ _ _ _ _ _ _ _ hex]
    intro ev hev
    rcases ih ev hev with ⟨g, hg, hh⟩ | ⟨d, hd, hh⟩ | ⟨d, hd, hh⟩
    · exact Or.inl ⟨g, by simp [allFiles, hg], hh⟩
    · exact Or.inr (Or.inl ⟨d, by simp [allDirs, hd], hh⟩)
    · exact Or.inr (Or.inr ⟨d, by simp [allDirs, hd], hh⟩)
  | case5 f cs ts e hex oc rc hab ih =>
    rw [not_or, Bool.not_eq_true, Bool.not_eq_true] at hex
    unfold_let rc oc at hab ih
    rw [walkList_dir_cons _ _ _ _ _ _ _ _ hex.1 hex.2]
    simp only [hab, if_true]
    intro ev hev
    rcases List.mem_cons.mp hev with h | h
    · exact Or.inr (Or.inl ⟨(f, true), by simp [allDirs], h⟩)
    · rcases ih ev h with ⟨g, hg, hh⟩ | ⟨d, hd, hh⟩ | ⟨d, hd, hh⟩
      · exact Or.inl ⟨g, by simp [allFiles, hg], hh⟩
      · exact Or.inr (Or.inl ⟨d, by simp [allDirs, hd], hh⟩)
      · exact Or.inr (Or.inr ⟨d, by simp [allDirs, hd], hh⟩)
  | case6 f cs ts e hex oc rc hab ih1 ih2 ih3 =>
    rw [not_or, Bool.not_eq_true, Bool.not_eq_true] at hex
    rw [Bool.not_eq_true] at hab
    unfold_let rc oc at hab ih1 ih3
    rw [walkList_dir_cons _ _ _ _ _ _ _ _ hex.1 hex.2]
    simp only [hab, Bool.false_eq_true, if_false, ite_false]
    intro ev hev
    rcases List.mem_cons.mp hev with h | h
    · exact Or.inr (Or.inl ⟨(f, true), by simp [allDirs], h⟩)
    · rcases List.mem_append.mp h with h2 | h2
      · rcases ih1 ev h2 with ⟨g, hg, hh⟩ | ⟨d, hd, hh⟩ | ⟨d, hd, hh⟩
        · exact Or.inl ⟨g, by simp [allFiles, hg], hh⟩
        · exact Or.inr (Or.inl ⟨d, by simp [allDirs, hd], hh⟩)
        · exact Or.inr (Or.inr ⟨d, by simp [allDirs, hd], hh⟩)
      · rcases ih3 ev h2 with ⟨g, hg, hh⟩ | ⟨d, hd, hh⟩ | ⟨d, hd, hh⟩
        · exact Or.inl ⟨g, by simp [allFiles, hg], hh⟩
        · exact Or.inr (Or.inl ⟨d, by simp [allDirs, hd], hh⟩)
        · exact Or.inr (Or.inr ⟨d, by simp [allDirs, hd], hh⟩)
  | case7 f readOk cs ts e hex hro =>
    rw [not_or, Bool.not_eq_true, Bool.not_eq_true] at hex
    rw [Bool.not_eq_true] at hro
    subst hro
    rw [walkList_dir_read_failed _ _ _ _ _ _ _ _ hex.1 hex.2]
    intro ev hev
    rcases List.mem_cons.mp hev with h | h
    · exact Or.inr (Or.inl ⟨(f, false), by simp [allDirs], h⟩)
    · rcases List.mem_cons.mp h with h2 | h2
      · exact Or.inr (Or.inr ⟨(f, false), by simp [allDirs], rfl, h2⟩)
      · simp at h2

theorem walkList_complete (root ext : String) (exclude : List String) (dry : Bool)
    (l : List FsTree) (e : Option Nat)
    (hdirs : ∀ d ∈ allDirs l, d.2 = true)
    (hexf : ∀ f ∈ allFiles l, needsExclusion (currentPathOf root f.path) exclude = false)
    (hexd : ∀ d ∈ allDirs l, needsExclusion (currentPathOf root d.1.path) exclude = false ∧
      stringInSlice d.1.name defaultExludedDirs = false) :
    (walkList root ext exclude dry l e).aborted = false ∧
    ∀ f ∈ allFiles l, WalkEvent.visited false f (addOrCheckLicense ext dry false f) ∈
      (walkList root ext exclude dry l e).events := by
  induction l, e using walkList.induct root ext exclude dry with
  | case1 e => simp [walkList_nil, allFiles]
  | case2 f ts e hex =>
    exact absurd (hexf f (by simp [allFiles])) (by simp [hex])
  | case3 f ts e hex oc ih =>
    rw [Bool.not_eq_true] at hex
    unfold_let oc at ih
    rw [walkList_file_cons _ _ _ _ _ _ _ hex]
    have := ih (fun d hd => hdirs d (by simpa [allDirs] using hd))
      (fun g hg => hexf g (by simp [allFiles, hg]))
      (fun d hd => hexd d (by simpa [allDirs] using hd))
    refine ⟨this.1, ?_⟩
    intro g hg
    rcases (by simpa [allFiles] using hg : g = f ∨ g ∈ allFiles ts) with h | h
    · subst h; exact List.mem_cons_self _ _
    · exact List.mem_cons_of_mem _ (this.2 g h)
  | case4 f readOk cs ts e hex ih =>
    have h := hexd (f, readOk) (by simp [allDirs])
    rw [h.1, h.2] at hex
    simp at hex
  | case5 f cs ts e hex oc rc hab ih =>
    unfold_let rc oc at hab
    have := (ih (fun d hd => hdirs d (by simp [allDirs, hd]))
      (fun g hg => hexf g (by simp [allFiles, hg]))
      (fun d hd => hexd d (by simp [allDirs, hd]))).1
    rw [this] at hab
    exact absurd hab (by simp)
  | case6 f cs ts e hex oc rc hab ih1 ih2 ih3 =>
    rw [not_or, Bool.not_eq_true, Bool.not_eq_true] at hex
    rw [Bool.not_eq_true] at hab
    unfold_let rc oc at hab ih1 ih3
    rw [walkList_dir_cons _ _ _ _ _ _ _ _ hex.1 hex.2]
    simp only [hab, Bool.false_eq_true, if_false, ite_false]
    have hcs := ih1 (fun d hd => hdirs d (by simp [allDirs, hd]))
      (fun g hg => hexf g (by simp [allFiles, hg]))
      (fun d hd => hexd d (by simp [allDirs, hd]))
    have hts := ih3 (fun d hd => hdirs d (by simp [allDirs, hd]))
      (fun g hg => hexf g (by simp [allFiles, hg]))
      (fun d hd => hexd d (by simp [allDirs, hd]))
    refine ⟨hts.1, ?_⟩
    intro g hg
    rcases (by simpa [allFiles] using hg : g ∈ allFiles cs ∨ g ∈ allFiles ts) with h | h
    · exact List.mem_cons_of_mem _ (List.mem_append.mpr (Or.inl (hcs.2 g h)))
    · exact List.mem_cons_of_mem _ (List.mem_append.mpr (Or.inr (hts.2 g h)))
  | case7 f readOk cs ts e hex hro =>
    rw [Bool.not_eq_true] at hro
    subst hro
    exact absurd (hdirs (f, false) (by simp [allDirs])) (by simp)

theorem dropWhile_append_of_all {p : Char → Bool} (xs ys : List Char)
    (h : ∀ x ∈ xs, p x = true) :
    List.dropWhile p (xs ++ ys) = List.dropWhile p ys := by
  induction xs with
  | nil => rfl
  | cons x rest ih =>
    simp only [List.cons_append, List.dropWhile_cons, h x (by simp)]
    exact ih (fun y hy => h y (by simp [hy]))

theorem dropWhile_slash (l : List Char) (h : ∀ c, l.head? = some c → c ≠ '/') :
    List.dropWhile (fun c => decide (c = '/')) ('/' :: l) = l := by
  cases l with
  | nil => rfl
  | cons c cs =>
    have hc : c ≠ '/' := h c rfl
    simp [List.dropWhile_cons, hc]

/-- C5 amended: when the scan root contains no separator and the first
character of the remainder is neither a character of the root nor a
separator, the path the code compares does equal the true relative path. -/
theorem C5_amended_correct_when_disjoint (root rest : String)
    (hroot : '/' ∉ root.toList)
    (hhead : ∀ c, rest.toList.head? = some c → c ≠ '/') :
    currentPathOf root (root ++ "/" ++ rest) = rest := by
  have hsep : List.dropWhile (fun c => decide (c ∈ root.toList)) ('/' :: rest.toList) =
      '/' :: rest.toList := by
    rw [List.dropWhile_cons]
    simp only [show decide ('/' ∈ root.toList) = false from by
        simp only [decide_eq_false_iff_not]; exact hroot,
      Bool.false_eq_true, if_false, ite_false]
  show cleanPathPrefixes (goTrimLeft (root ++ "/" ++ rest) root) = rest
  unfold goTrimLeft
  rw [show (root ++ "/" ++ rest).toList = root.toList ++ ('/' :: rest.toList) from by
    simp [String.toList, String.data_append]]
  rw [dropWhile_append_of_all _ _ (fun x hx => by simp only [decide_eq_true_eq]; exact hx)]
  rw [hsep]
  unfold cleanPathPrefixes
  rw [show (String.mk ('/' :: rest.toList)).toList = '/' :: rest.toList from rfl]
  rw [dropWhile_slash _ hhead]
  rfl

/-- C5 counterexample: with scan root "a/b" the entry "a/b/ba.go" is
compared under the path ".go" (strings.TrimLeft also consumed the
"ba" of the file name, since such characters occur in the root),
not under its true relative path "ba.go". -/
theorem C5_counterexample :
    currentPathOf "a/b" "a/b/ba.go" = ".go" ∧
    specRelPath "a/b" "a/b/ba.go" = "ba.go" ∧
    currentPathOf "a/b" "a/b/ba.go" ≠ specRelPath "a/b" "a/b/ba.go" := by
  refine ⟨by decide, by decide, by decide⟩

/-- C5 witness: the amended statement applied to the root "testdata"
and remainder "app.go". -/
theorem C5_witness :
    ('/' ∉ "testdata".toList) ∧
    currentPathOf "testdata" ("testdata" ++ "/" ++ "app.go") = "app.go" :=
  ⟨by decide,
    C5_amended_correct_when_disjoint "testdata" "app.go" (by decide) (by decide)⟩

/-- C9 amended: a file is opened and checked iff filepath.Ext of its
path (the suffix beginning at the final dot of the last path element,
empty when there is no dot) equals the configured extension exactly;
a file failing that comparison produces no open, no report, no
rewrite and a nil error. -/
theorem C9_amended (ext : String) (dry : Bool) (f : FileModel) :
    ((addOrCheckLicense ext dry false f).openAttempted = true ↔ filepathExt f.path = ext) ∧
    (filepathExt f.path ≠ ext →
      addOrCheckLicense ext dry false f =
        { openAttempted := false, reported := false, rewriteAttempted := false, err := none }) := by
  constructor
  · constructor
    · intro hop
      by_contra hne
      simp [addOrCheckLicense, hne] at hop
    · intro heq
      simp only [addOrCheckLicense, heq]
      split_ifs <;> simp_all
  · intro hne
    simp [addOrCheckLicense, hne]

/-- C9 witness. -/
theorem C9_witness :
    (filepathExt "README.md" ≠ ".go") ∧
    addOrCheckLicense ".go" false false ⟨"README.md", "README.md", true, false, true⟩ =
      { openAttempted := false, reported := false, rewriteAttempted := false, err := none } :=
  ⟨by decide,
    (C9_amended ".go" false ⟨"README.md", "README.md", true, false, true⟩).2 (by decide)⟩

/-- C9 counterexample: with configured extension ".tar.gz" the file
"archive.tar.gz" ends with the configured extension, yet it is never
opened and never reported, because filepath.Ext yields ".gz". -/
theorem C9_counterexample :
    (".tar.gz".toList.isSuffixOf "archive.tar.gz".toList = true) ∧
    (addOrCheckLicense ".tar.gz" false false
      ⟨"archive.tar.gz", "archive.tar.gz", true, false, true⟩).openAttempted = false ∧
    (addOrCheckLicense ".tar.gz" false false
      ⟨"archive.tar.gz", "archive.tar.gz", true, false, true⟩).reported = false := by
  refine ⟨by decide, by decide, by decide⟩

/-- C8: at the failing input, a binary installed at
/usr/local/bin/go-licenser scanning an absolute root prints the
non-compliant file relative to the directory of the binary (the
misnamed cwd variable of reportFile), which identifies the file
neither by its path within the scanned tree nor by its walk path;
when filepath.Rel fails (mixed absolute/relative), the raw walk path
is printed instead. -/
theorem C8_reportFile_relative_to_binary_dir :
    reportFile "/usr/local/bin" "/home/user/proj/x.go" =
      "../../../home/user/proj/x.go: is missing the license header\n" ∧
    "../../../home/user/proj/x.go" ≠ "x.go" ∧
    "../../../home/user/proj/x.go" ≠ "/home/user/proj/x.go" ∧
    reportFile "/usr/local/bin" "proj/x.go" = "proj/x.go: is missing the license header\n" := by
  refine ⟨by decide, by decide, by decide, by decide⟩

theorem runMaterialize_foldl (licensor : String) (header : List String) :
    ∀ acc1 : List String, ∀ acc2 : String,
      header.foldl
        (fun acc line =>
          let line2 := if containsPlaceholder line then goSprintf line licensor else line
          (acc.1 ++ [line2], acc.2 ++ line2 ++ "\n"))
        (acc1, acc2) =
      (acc1 ++ header.map (specSubstLine licensor), acc2 ++ specHeaderBytes header licensor) := by
  induction header with
  | nil => intro acc1 acc2; simp [specHeaderBytes]
  | cons line rest ih =>
    intro acc1 acc2
    simp only [List.foldl_cons, List.map_cons, specHeaderBytes]
    rw [ih]
    simp only [specSubstLine, Prod.mk.injEq]
    refine ⟨by simp, by simp [String.append_assoc]⟩

theorem runMaterialize_eq (header : List String) (licensor : String) :
    runMaterialize header licensor =
      (header.map (specSubstLine licensor), specHeaderBytes header licensor) := by
  unfold runMaterialize
  rw [runMaterialize_foldl]
  simp

/-- C7: the materialized header byte sequence is the substituted
template lines in order, one newline after each including the last. -/
theorem C7_headerBytes_eq_spec (header : List String) (licensor : String) :
    (runMaterialize header licensor).2 = specHeaderBytes header licensor := by
  rw [runMaterialize_eq]

theorem specSubstLine_no_ph (l s : String) (h : containsPlaceholder s = false) :
    specSubstLine l s = s := by
  unfold specSubstLine
  rw [h]
  simp

theorem specHeaderBytes_of_no_placeholder (l1 l2 : String) (lines : List String)
    (h : ∀ line ∈ lines.map (specSubstLine l1), containsPlaceholder line = false) :
    specHeaderBytes (lines.map (specSubstLine l1)) l2 = specHeaderBytes lines l1 := by
  induction lines with
  | nil => rfl
  | cons line rest ih =>
    simp only [List.map_cons, specHeaderBytes]
    rw [specSubstLine_no_ph l2 (specSubstLine l1 line)
      (h (specSubstLine l1 line) (by simp only [List.map_cons]; exact List.mem_cons_self _ _))]
    rw [ih (fun x hx => h x (by simp only [List.map_cons]; exact List.mem_cons_of_mem _ hx))]

/-- C6 amended: a second materialization reuses the stored, already
substituted template, so when the substituted lines no longer contain
the placeholder its output equals the first call byte sequence no
matter which licensor the second call passes. -/
theorem C6_amended_second_call_reuses_substituted (header : List String) (l1 l2 : String)
    (h : ∀ line ∈ (runMaterialize header l1).1, containsPlaceholder line = false) :
    (runMaterialize (runMaterialize header l1).1 l2).2 = (runMaterialize header l1).2 := by
  rw [runMaterialize_eq header l1] at h ⊢
  rw [runMaterialize_eq]
  exact specHeaderBytes_of_no_placeholder l1 l2 header h

/-- C6 witness: the amended statement applied to a one-line template
materialized first with licensor "A" and then with licensor "B". -/
theorem C6_witness :
    (runMaterialize (runMaterialize ["// (c) %s owner"] "A").1 "B").2 =
      (runMaterialize ["// (c) %s owner"] "A").2 :=
  C6_amended_second_call_reuses_substituted ["// (c) %s owner"] "A" "B" (by decide)

/-- C6 counterexample: materializing the one-line template overwrites
the stored template line (the placeholder is gone afterwards), and a
second materialization with licensor "B" still yields the bytes of
licensor "A", unlike a fresh materialization with "B". -/
theorem C6_counterexample :
    (runMaterialize ["// (c) %s owner"] "A").1 = ["// (c) A owner"] ∧
    (runMaterialize ["// (c) %s owner"] "A").1 ≠ ["// (c) %s owner"] ∧
    (runMaterialize (runMaterialize ["// (c) %s owner"] "A").1 "B").2 = "// (c) A owner\n" ∧
    (runMaterialize ["// (c) %s owner"] "B").2 = "// (c) B owner\n" ∧
    ("// (c) A owner\n" : String) ≠ "// (c) B owner\n" := by
  refine ⟨by decide, by decide, by decide, by decide, by decide⟩

/-- C10: the error value returned by walk is the last per-entry error
encountered in traversal order; each later error overwrites the
earlier one, so in particular a dry-run violation found after a
file-open failure replaces that failure as the outcome. -/
theorem C10_walk_err_is_last_error (p ext : String) (exclude : List String) (dry : Bool)
    (tree : FsTree) :
    (walk p ext exclude dry tree).1 =
      ((walk p ext exclude dry tree).2.filterMap eventErr).getLast? := by
  show (walkList p ext exclude dry [tree] none).err = _
  rw [walkList_err_eq, lastErrAfter_eq_getLast, updErr_none_left]
  rfl

/-- C1: for every file visited by a walk, the rewriter is invoked iff
dry-run is false and the detector ran and reported the header absent
(which requires the extension to match and the open to succeed); a
compliant file is never rewritten, and in dry-run mode no file is. -/
theorem C1_rewrite_iff (p ext : String) (exclude : List String) (dry : Bool)
    (tree : FsTree) (f : FileModel) (oc : FileOutcome)
    (hmem : WalkEvent.visited false f oc ∈ (walk p ext exclude dry tree).2) :
    (oc.rewriteAttempted = true ↔
      dry = false ∧ filepathExt f.path = ext ∧ f.openOk = true ∧ f.hasHeader = false) ∧
    (f.hasHeader = true → oc.rewriteAttempted = false) ∧
    (dry = true → oc.rewriteAttempted = false) := by
  have hshape := walkList_events_shape p ext exclude dry [tree] none
    (WalkEvent.visited false f oc) hmem
  have hoc : oc = addOrCheckLicense ext dry false f := by
    rcases hshape with ⟨g, _, hh⟩ | ⟨d, _, hh⟩ | ⟨d, _, _, hh⟩
    · injection hh with h1 h2 h3; subst h2; exact h3
    · injection hh with h1 h2 h3; exact absurd h1 (by simp)
    · exact absurd hh (by intro hcontra; injection hcontra)
  subst hoc
  unfold addOrCheckLicense
  by_cases h1 : filepathExt f.path = ext <;>
    by_cases h2 : f.openOk = true <;>
      by_cases h3 : f.hasHeader = true <;>
        cases dry <;>
          by_cases h5 : f.rewriteOk = true <;>
            simp_all

theorem walkList_state_indep (root ext : String) (exclude : List String) (dry : Bool)
    (l : List FsTree) (e : Option Nat) :
    ∀ e' : Option Nat,
      (walkList root ext exclude dry l e).events =
        (walkList root ext exclude dry l e').events ∧
      (walkList root ext exclude dry l e).aborted =
        (walkList root ext exclude dry l e').aborted := by
  induction l, e using walkList.induct root ext exclude dry with
  | case1 e => intro e'; simp [walkList_nil]
  | case2 f ts e hex => intro e'; simp [walkList_file_excluded _ _ _ _ _ _ _ hex]
  | case3 f ts e hex oc ih =>
    rw [Bool.not_eq_true] at hex
    unfold_let oc at ih
    intro e'
    rw [walkList_file_cons _ _ _ _ _ _ _ hex, walkList_file_cons _ _ _ _ _ _ _ hex]
    have h := ih (updErr e' (addOrCheckLicense ext dry false f).err)
    exact ⟨by simp [h.1], by simp [h.2]⟩
  | case4 f readOk cs ts e hex ih =>
    intro e'
    rw [walkList_dir_excluded _ _ _ _ _ _ _ _ _ hex,
      walkList_dir_excluded _ _ _ _ _ _ _ _ _ hex]
    exact ih e'
  | case5 f cs ts e hex oc rc hab ih =>
    rw [not_or, Bool.not_eq_true, Bool.not_eq_true] at hex
    unfold_let rc oc at hab ih
    intro e'
    rw [walkList_dir_cons _ _ _ _ _ _ _ _ hex.1 hex.2,
      walkList_dir_cons _ _ _ _ _ _ _ _ hex.1 hex.2]
    have h := ih (updErr e' (addOrCheckLicense ext dry true f).err)
    simp only [hab, ← h.2, hab, if_true]
    simp [h.1]
  | case6 f cs ts e hex oc rc hab ih1 ih2 ih3 =>
    rw [not_or, Bool.not_eq_true, Bool.not_eq_true] at hex
    rw [Bool.not_eq_true] at hab
    unfold_let rc oc at hab ih1 ih3
    intro e'
    rw [walkList_dir_cons _ _ _ _ _ _ _ _ hex.1 hex.2,
      walkList_dir_cons _ _ _ _ _ _ _ _ hex.1 hex.2]
    have h1 := ih1 (updErr e' (addOrCheckLicense ext dry true f).err)
    simp only [hab, ← h1.2, hab, Bool.false_eq_true, if_false, ite_false]
    have h3 := ih3 (walkList root ext exclude dry cs
      (updErr e' (addOrCheckLicense ext dry true f).err)).err
    exact ⟨by simp [h1.1, h3.1], by simp [h3.2]⟩
  | case7 f readOk cs ts e hex hro =>
    rw [not_or, Bool.not_eq_true, Bool.not_eq_true] at hex
    rw [Bool.not_eq_true] at hro
    subst hro
    intro e'
    rw [walkList_dir_read_failed _ _ _ _ _ _ _ _ hex.1 hex.2,
      walkList_dir_read_failed _ _ _ _ _ _ _ _ hex.1 hex.2]
    exact ⟨rfl, rfl⟩

/-- C2 amended: a file-level fault (open or rewrite failure) only
updates the pending error and traversal continues with the subsequent
entries exactly as without the fault; only a directory-read failure
aborts the walk at once. -/
theorem C2_amended_faults_do_not_stop_walk (root ext : String) (exclude : List String)
    (dry : Bool) (f : FileModel) (ts : List FsTree) (e : Option Nat)
    (hex : needsExclusion (currentPathOf root f.path) exclude = false) :
    ((walkList root ext exclude dry (FsTree.file f :: ts) e).events =
      WalkEvent.visited false f (addOrCheckLicense ext dry false f) ::
        (walkList root ext exclude dry ts e).events) ∧
    ((walkList root ext exclude dry (FsTree.file f :: ts) e).aborted =
      (walkList root ext exclude dry ts e).aborted) ∧
    (∀ g cs, needsExclusion (currentPathOf root g.path) exclude = false →
      stringInSlice g.name defaultExludedDirs = false →
      (walkList root ext exclude dry (FsTree.dir g false cs :: ts) e).aborted = true ∧
      (walkList root ext exclude dry (FsTree.dir g false cs :: ts) e).events =
        [WalkEvent.visited true g (addOrCheckLicense ext dry true g),
         WalkEvent.dirReadFailed g]) := by
  refine ⟨?_, ?_, ?_⟩
  · rw [walkList_file_cons _ _ _ _ _ _ _ hex]
    have h := walkList_state_indep root ext exclude dry ts
      (updErr e (addOrCheckLicense ext dry false f).err) e
    simp [h.1]
  · rw [walkList_file_cons _ _ _ _ _ _ _ hex]
    have h := walkList_state_indep root ext exclude dry ts
      (updErr e (addOrCheckLicense ext dry false f).err) e
    simp [h.2]
  · intro g cs hg1 hg2
    rw [walkList_dir_read_failed _ _ _ _ _ _ _ _ hg1 hg2]
    exact ⟨rfl, rfl⟩

/-- C2 counterexample: after the open failure on r/a.go the walk still
checks and reports r/b.go. -/
theorem C2_counterexample :
    (walk "r" ".go" [] true c2Tree).2 =
      [WalkEvent.visited true c2Dir
        { openAttempted := false, reported := false, rewriteAttempted := false, err := none },
       WalkEvent.visited false c2FileA
        { openAttempted := true, reported := false, rewriteAttempted := false,
          err := some exitFailedToOpenWalkFile },
       WalkEvent.visited false c2FileB
        { openAttempted := true, reported := true, rewriteAttempted := false,
          err := some exitSourceNeedsToBeRewritten }] ∧
    (walk "r" ".go" [] true c2Tree).1 = some exitSourceNeedsToBeRewritten := by
  refine ⟨?_, ?_⟩ <;> simp +decide [walk, walkList, c2Tree, c2Dir, c2FileA, c2FileB]

/-- C2 witness. -/
theorem C2_witness :
    (needsExclusion (currentPathOf "r" c2FileA.path) [] = false) ∧
    ((walkList "r" ".go" [] true (FsTree.file c2FileA :: [FsTree.file c2FileB]) none).events =
      WalkEvent.visited false c2FileA (addOrCheckLicense ".go" true false c2FileA) ::
        (walkList "r" ".go" [] true [FsTree.file c2FileB] none).events) :=
  ⟨by decide,
    (C2_amended_faults_do_not_stop_walk "r" ".go" [] true c2FileA [FsTree.file c2FileB]
      none (by decide)).1⟩

/-- C3 amended: an excluded directory is pruned and siblings continue;
an excluded file additionally skips the remaining entries of its
containing directory (fs.SkipDir returned for a file), while the walk
resumes at the parent level. -/
theorem C3_amended_excluded_file_breaks_siblings (root ext : String)
    (exclude : List String) (dry : Bool) (f : FileModel) (ts : List FsTree)
    (e : Option Nat) :
    (needsExclusion (currentPathOf root f.path) exclude = true →
      walkList root ext exclude dry (FsTree.file f :: ts) e =
        { err := e, events := [], aborted := false }) ∧
    (∀ g ok cs, needsExclusion (currentPathOf root g.path) exclude = true ∨
        stringInSlice g.name defaultExludedDirs = true →
      walkList root ext exclude dry (FsTree.dir g ok cs :: ts) e =
        walkList root ext exclude dry ts e) :=
  ⟨fun h => walkList_file_excluded root ext exclude dry f ts e h,
   fun g ok cs h => walkList_dir_excluded root ext exclude dry g ok cs ts e h⟩

/-- C3 counterexample: excluding the file x.go also skips its sibling
y.go, which qualifies and is not itself excluded. -/
theorem C3_counterexample :
    (walk "r" ".go" ["x.go"] true c3Tree).2 =
      [WalkEvent.visited true c3Dir
        { openAttempted := false, reported := false, rewriteAttempted := false, err := none }] ∧
    needsExclusion (currentPathOf "r" c3FileY.path) ["x.go"] = false ∧
    filepathExt c3FileY.path = ".go" ∧
    (walk "r" ".go" ["x.go"] true c3Tree).1 = none := by
  refine ⟨?_, by decide, by decide, ?_⟩ <;>
    simp +decide [walk, walkList, c3Tree, c3Dir, c3FileX, c3FileY]

/-- C3 witness. -/
theorem C3_witness :
    (needsExclusion (currentPathOf "r" c3FileX.path) ["x.go"] = true) ∧
    (walkList "r" ".go" ["x.go"] true (FsTree.file c3FileX :: [FsTree.file c3FileY]) none =
      { err := none, events := [], aborted := false }) :=
  ⟨by decide,
    (C3_amended_excluded_file_breaks_siblings "r" ".go" ["x.go"] true c3FileX
      [FsTree.file c3FileY] none).1 (by decide)⟩

/-- C1 witness. -/
theorem C1_witness :
    (WalkEvent.visited false w1File (addOrCheckLicense ".go" false false w1File) ∈
      (walk "r" ".go" [] false w1Tree).2) ∧
    ((addOrCheckLicense ".go" false false w1File).rewriteAttempted = true ↔
      (false = false ∧ filepathExt w1File.path = ".go" ∧ w1File.openOk = true ∧
        w1File.hasHeader = false)) ∧
    (w1File.hasHeader = true →
      (addOrCheckLicense ".go" false false w1File).rewriteAttempted = false) ∧
    (false = true →
      (addOrCheckLicense ".go" false false w1File).rewriteAttempted = false) := by
  have hmem : WalkEvent.visited false w1File (addOrCheckLicense ".go" false false w1File) ∈
      (walk "r" ".go" [] false w1Tree).2 := by
    simp +decide [walk, walkList, w1Tree, w1Dir, w1File]
  exact ⟨hmem, C1_rewrite_iff "r" ".go" [] false w1Tree w1File _ hmem⟩

theorem C4_amended_dry_run_aggregates (p ext : String) (exclude : List String)
    (tree : FsTree)
    (hdirs : ∀ d ∈ allDirs [tree], d.2 = true)
    (hopen : ∀ f ∈ allFiles [tree], f.openOk = true)
    (hexf : ∀ f ∈ allFiles [tree], needsExclusion (currentPathOf p f.path) exclude = false)
    (hexd : ∀ d ∈ allDirs [tree], needsExclusion (currentPathOf p d.1.path) exclude = false ∧
      stringInSlice d.1.name defaultExludedDirs = false) :
    (walkList p ext exclude true [tree] none).aborted = false ∧
    (∀ f ∈ allFiles [tree], filepathExt f.path = ext → f.hasHeader = false →
      WalkEvent.visited false f
        { openAttempted := true, reported := true, rewriteAttempted := false,
          err := some exitSourceNeedsToBeRewritten } ∈ (walk p ext exclude true tree).2) ∧
    ((walk p ext exclude true tree).1 = some exitSourceNeedsToBeRewritten ↔
      ∃ f ∈ allFiles [tree], filepathExt f.path = ext ∧ f.hasHeader = false) := by
  have hcomp := walkList_complete p ext exclude true [tree] none hdirs hexf hexd
  have hoc : ∀ f ∈ allFiles [tree], filepathExt f.path = ext → f.hasHeader = false →
      addOrCheckLicense ext true false f =
        { openAttempted := true, reported := true, rewriteAttempted := false,
          err := some exitSourceNeedsToBeRewritten } := by
    intro f hf hext hh
    simp [addOrCheckLicense, hext, hopen f hf, hh]
  have hev : ∀ ev ∈ (walkList p ext exclude true [tree] none).events, ∀ x,
      eventErr ev = some x →
      x = exitSourceNeedsToBeRewritten ∧
        ∃ f ∈ allFiles [tree], filepathExt f.path = ext ∧ f.hasHeader = false := by
    intro ev hevmem x hx
    rcases walkList_events_shape p ext exclude true [tree] none ev hevmem with
      ⟨g, hg, rfl⟩ | ⟨d, hd, rfl⟩ | ⟨d, hd, hd2, rfl⟩
    · simp only [eventErr] at hx
      by_cases h1 : filepathExt g.path = ext
      · by_cases h3 : g.hasHeader = true
        · simp [addOrCheckLicense, h1, h3, hopen g hg] at hx
        · simp only [Bool.not_eq_true] at h3
          rw [hoc g hg h1 h3] at hx
          simp only [Option.some.injEq] at hx
          exact ⟨hx.symm, g, hg, h1, h3⟩
      · simp [addOrCheckLicense, h1] at hx
    · simp [eventErr, addOrCheckLicense] at hx
    · exact absurd (hdirs d hd) (by simp [hd2])
  refine ⟨hcomp.1, ?_, ?_⟩
  · intro f hf hext hh
    have := hcomp.2 f hf
    rw [hoc f hf hext hh] at this
    exact this
  · have herr : (walk p ext exclude true tree).1 =
        updErr none ((walk p ext exclude true tree).2.filterMap eventErr).getLast? := by
      show (walkList p ext exclude true [tree] none).err = _
      rw [walkList_err_eq, lastErrAfter_eq_getLast]
      rfl
    constructor
    · intro h
      rw [herr] at h
      cases hlast : ((walk p ext exclude true tree).2.filterMap eventErr).getLast? with
      | none => rw [hlast] at h; simp [updErr] at h
      | some x =>
        have hxin := List.mem_of_getLast?_eq_some hlast
        rcases List.mem_filterMap.mp hxin with ⟨ev, hevmem, hevx⟩
        exact (hev ev hevmem x hevx).2
    · rintro ⟨f, hf, hext, hh⟩
      have hmem := hcomp.2 f hf
      rw [hoc f hf hext hh] at hmem
      have hfm : exitSourceNeedsToBeRewritten ∈
          ((walk p ext exclude true tree).2.filterMap eventErr) := by
        refine List.mem_filterMap.mpr ⟨_, hmem, ?_⟩
        simp [eventErr]
      cases hlast : ((walk p ext exclude true tree).2.filterMap eventErr).getLast? with
      | none =>
        rw [List.getLast?_eq_none_iff] at hlast
        rw [hlast] at hfm
        simp at hfm
      | some y =>
        have hyin := List.mem_of_getLast?_eq_some hlast
        rcases List.mem_filterMap.mp hyin with ⟨ev, hevmem, hevy⟩
        have hy := (hev ev hevmem y hevy).1
        rw [herr, hlast, hy]
        rfl

/-- C4 counterexample: the dry run reports the non-compliant r/a.go,
completes the traversal, and yet ends with the open-failure outcome of
r/b.go instead of the violations-found outcome. -/
theorem C4_counterexample :
    (walk "r" ".go" [] true c4Tree).2 =
      [WalkEvent.visited true c4Dir
        { openAttempted := false, reported := false, rewriteAttempted := false, err := none },
       WalkEvent.visited false c4FileA
        { openAttempted := true, reported := true, rewriteAttempted := false,
          err := some exitSourceNeedsToBeRewritten },
       WalkEvent.visited false c4FileB
        { openAttempted := true, reported := false, rewriteAttempted := false,
          err := some exitFailedToOpenWalkFile }] ∧
    c4FileA.hasHeader = false ∧
    filepathExt c4FileA.path = ".go" ∧
    (walk "r" ".go" [] true c4Tree).1 = some exitFailedToOpenWalkFile ∧
    exitFailedToOpenWalkFile ≠ exitSourceNeedsToBeRewritten := by
  refine ⟨?_, by decide, by decide, ?_, by decide⟩ <;>
    simp +decide [walk, walkList, c4Tree, c4Dir, c4FileA, c4FileB]

/-- C4 witness: the amended statement applied to a fault-free,
exclusion-free dry run over one non-compliant file. -/
theorem C4_witness :
    (walkList "r" ".go" [] true [w4Tree] none).aborted = false ∧
    WalkEvent.visited false w4File
      { openAttempted := true, reported := true, rewriteAttempted := false,
        err := some exitSourceNeedsToBeRewritten } ∈ (walk "r" ".go" [] true w4Tree).2 ∧
    (walk "r" ".go" [] true w4Tree).1 = some exitSourceNeedsToBeRewritten := by
  have h1 : ∀ d ∈ allDirs [w4Tree], d.2 = true := by
    simp +decide [allDirs, w4Tree, w4Dir, w4File]
  have h2 : ∀ f ∈ allFiles [w4Tree], f.openOk = true := by
    simp +decide [allFiles, w4Tree, w4Dir, w4File]
  have h3 : ∀ f ∈ allFiles [w4Tree], needsExclusion (currentPathOf "r" f.path) [] = false := by
    simp +decide [allFiles, w4Tree, w4Dir, w4File]
  have h4 : ∀ d ∈ allDirs [w4Tree], needsExclusion (currentPathOf "r" d.1.path) [] = false ∧
      stringInSlice d.1.name defaultExludedDirs = false := by
    simp +decide [allDirs, w4Tree, w4Dir, w4File]
  have main := C4_amended_dry_run_aggregates "r" ".go" [] w4Tree h1 h2 h3 h4
  refine ⟨main.1, ?_, ?_⟩
  · exact main.2.1 w4File (by simp [allFiles, w4Tree]) (by decide) (by decide)
  · exact main.2.2.mpr ⟨w4File, by simp [allFiles, w4Tree], by decide, by decide⟩
